import Mathlib

/-!
Shallow embedding of the student-record system (src/reports.py,
src/array_operations.py) for checking the specification claims.

Numbers are modelled as exact rationals (ℚ): every numeric literal the
program manipulates is a short decimal, and the spec fixes the rounding
convention to round-half-to-even at two decimal places, so ℚ with an
explicit half-even rounding step is the intended semantics.  Non-finite
float literals ("inf", "nan") are represented explicitly by the `PyFloat`
type so that the range check of the validator treats them exactly as
Python does (a chained comparison against NaN or infinity is false).
-/

namespace StudentRecords

/-- Result of Python `float(s)`: a finite rational or a non-finite value. -/
inductive PyFloat where
  | finite (q : ℚ)
  | pinf
  | ninf
  | nan
deriving DecidableEq, Repr

/-- Numeric value of a digit run, most significant first. -/
def digitsVal (l : List Char) : ℕ :=
  l.foldl (fun a c => a * 10 + (c.toNat - 48)) 0

/-- Lower-casing of a string, character by character (Python `str.lower`
on the ASCII inputs this program compares against). -/
def lowerStr (s : String) : String :=
  String.mk (s.data.map Char.toLower)

/-- Python `str.strip()`: drop whitespace from both ends. -/
def pyStrip (s : String) : String :=
  String.mk (((s.data.dropWhile Char.isWhitespace).reverse.dropWhile
    Char.isWhitespace).reverse)

/-- Model of Python `float(s)` on an already-stripped string: optional
sign, then `inf`/`infinity`/`nan` (case-insensitive) or a decimal literal
`digits [. digits] [(e|E) [sign] digits]` with at least one digit in the
mantissa.  (Digit-group underscores, a rarely used literal form, are
outside the model.)  Returns `none` when Python would raise `ValueError`. -/
def pyFloat? (s : String) : Option PyFloat :=
  let signed : Int × List Char :=
    match s.data with
    | '+' :: t => (1, t)
    | '-' :: t => (-1, t)
    | t => (1, t)
  let sgn := signed.1
  let cs := signed.2
  let low := cs.map Char.toLower
  if low = "inf".data ∨ low = "infinity".data then
    some (if sgn = 1 then PyFloat.pinf else PyFloat.ninf)
  else if low = "nan".data then
    some PyFloat.nan
  else
    let ipSplit := cs.span Char.isDigit
    let ip := ipSplit.1
    let fracSplit : List Char × List Char :=
      match ipSplit.2 with
      | '.' :: t => t.span Char.isDigit
      | r => ([], r)
    let fp := fracSplit.1
    if ip = [] ∧ fp = [] then none
    else
      let mant : ℚ :=
        (sgn : ℚ) * ((digitsVal ip : ℚ) + (digitsVal fp : ℚ) / ((10 : ℚ) ^ fp.length))
      match fracSplit.2 with
      | [] => some (PyFloat.finite mant)
      | e :: t =>
        if e = 'e' ∨ e = 'E' then
          let esigned : Bool × List Char :=
            match t with
            | '+' :: u => (true, u)
            | '-' :: u => (false, u)
            | u => (true, u)
          let edSplit := esigned.2.span Char.isDigit
          if edSplit.1 = [] ∨ edSplit.2 ≠ [] then none
          else
            let ex := digitsVal edSplit.1
            some (PyFloat.finite
              (if esigned.1 then mant * (10 : ℚ) ^ ex else mant / (10 : ℚ) ^ ex))
        else none

/-- Round a rational to the nearest integer, ties to even
(banker's rounding, Python `round`). -/
def roundHalfEven (q : ℚ) : ℤ :=
  let f := ⌊q⌋
  let r := q - (f : ℚ)
  if r < 1/2 then f
  else if (1:ℚ)/2 < r then f + 1
  else if f % 2 = 0 then f else f + 1

/-- `round(x, 2)`: round-half-to-even at two decimal places. -/
def round2 (q : ℚ) : ℚ :=
  (roundHalfEven (q * 100) : ℚ) / 100

/-! ## reports.py -/

/-- Grade weights (`WEIGHTS` in reports.py), as exact decimals. -/
def wQuiz : ℚ := 3/10
/-- Midterm weight. -/
def wMidterm : ℚ := 3/10
/-- Final-exam weight. -/
def wFinal : ℚ := 3/10
/-- Attendance weight. -/
def wAttendance : ℚ := 1/10

/-- A CSV row as `csv.DictReader` hands it to reports.py: each of the 12
header fields either absent (`none`) or a raw string value. -/
structure Row where
  student_id : Option String := none
  last_name : Option String := none
  first_name : Option String := none
  «section» : Option String := none
  quiz1 : Option String := none
  quiz2 : Option String := none
  quiz3 : Option String := none
  quiz4 : Option String := none
  quiz5 : Option String := none
  midterm : Option String := none
  final : Option String := none
  attendance_percent : Option String := none
deriving DecidableEq, Repr

/-- `_to_float_safe`: `None`, blank, the case-insensitive text "none", and
unparseable strings all become missing; a finite parse is kept.  A
non-finite parse ("inf"/"nan" text) is outside the grade-engine model and
mapped to missing here; no claim exercises it through this path. -/
def toFloatSafe : Option String → Option ℚ
  | none => none
  | some v =>
    let s := pyStrip v
    if s = "" ∨ lowerStr s = "none" then none
    else
      match pyFloat? s with
      | some (PyFloat.finite q) => some q
      | _ => none

/-- The present quiz scores of a row, in quiz1..quiz5 order
(the collection loop of `_compute_final_from_row_map`). -/
def quizzesOf (row : Row) : List ℚ :=
  [row.quiz1, row.quiz2, row.quiz3, row.quiz4, row.quiz5].filterMap toFloatSafe

/-- Quiz average: arithmetic mean of the present quiz scores, 0 if none. -/
def quizAvgOf (row : Row) : ℚ :=
  let qs := quizzesOf row
  if qs = [] then 0 else qs.sum / (qs.length : ℚ)

/-- `_compute_final_from_row_map`: weighted composite, `none` when the quiz
average is 0 and midterm, final and attendance are all missing. -/
def computeFinal (row : Row) : Option ℚ :=
  let quizAvg := quizAvgOf row
  let mid := toFloatSafe row.midterm
  let fin := toFloatSafe row.final
  let att := toFloatSafe row.attendance_percent
  if quizAvg = 0 ∧ mid = none ∧ fin = none ∧ att = none then
    none
  else
    let midVal := mid.getD 0
    let finVal := fin.getD 0
    let attVal := att.getD 0
    some (round2 (quizAvg * wQuiz + midVal * wMidterm + finVal * wFinal
      + attVal * wAttendance))

/-- `_letter_grade`. -/
def letterGrade : Option ℚ → String
  | none => "N/A"
  | some s =>
    if s ≥ 90 then "A"
    else if s ≥ 80 then "B"
    else if s ≥ 70 then "C"
    else if s ≥ 60 then "D"
    else "F"

/-- The selection loop of `export_at_risk`: keep, in input order, the
records whose composite is present and strictly below the threshold,
paired with that composite (the code projects each kept record to an
output dict carrying its identifying fields and the formatted grade). -/
def exportAtRisk (rows : List Row) (threshold : ℚ) : List (Row × ℚ) :=
  rows.filterMap fun r =>
    match computeFinal r with
    | none => none
    | some f => if f < threshold then some (r, f) else none

/-- Default `PASSING_GRADE` threshold. -/
def PASSING_GRADE : ℚ := 75

/-- The group name of a row in `export_per_section`:
`r.get("section") or "UNSPECIFIED"` (Python `or`: `None` and the empty
string are falsy), then `strip()` and replacement of every space by an
underscore.  A single-character `str.replace` is exactly a per-character
map. -/
def sectionKey (r : Row) : String :=
  let sec : String :=
    match r.«section» with
    | none => "UNSPECIFIED"
    | some s => if s = "" then "UNSPECIFIED" else s
  String.mk ((pyStrip sec).data.map fun c => if c = ' ' then '_' else c)

/-- Output file name for a section group. -/
def sectionFileName (key : String) : String :=
  "section_" ++ key ++ ".csv"

/-- Insert a row into the ordered association list of groups, matching
Python dict `setdefault(...).append(...)` semantics: the first occurrence
of a key fixes its position, members stay in input order. -/
def addToGroups (gs : List (String × List Row)) (k : String) (r : Row) :
    List (String × List Row) :=
  match gs with
  | [] => [(k, [r])]
  | (k₀, rs) :: t =>
    if k₀ = k then (k₀, rs ++ [r]) :: t else (k₀, rs) :: addToGroups t k r

/-- The grouping loop of `export_per_section`. -/
def groupBySection (rows : List Row) : List (String × List Row) :=
  rows.foldl (fun gs r => addToGroups gs (sectionKey r) r) []

/-- Total number of records over all groups. -/
def groupSizeSum (gs : List (String × List Row)) : ℕ :=
  (gs.map fun g => g.2.length).sum

/-- The grade-collection loop of `summary_report`: one composite appended
per record whose composite is present. -/
def collectGrades (rows : List Row) : List ℚ :=
  rows.foldl (fun acc r =>
    match computeFinal r with
    | some f => acc ++ [f]
    | none => acc) []

/-- Arithmetic mean (`statistics.mean`) of a nonempty list. -/
def meanOf (gs : List ℚ) : ℚ := gs.sum / (gs.length : ℚ)

/-- `statistics.median`: middle of the sorted list, or the mean of the two
middle elements for an even count. -/
def medianOf (gs : List ℚ) : ℚ :=
  let s := gs.mergeSort fun a b => decide (a ≤ b)
  let n := s.length
  if n % 2 = 1 then s.getD (n / 2) 0
  else (s.getD (n / 2 - 1) 0 + s.getD (n / 2) 0) / 2

/-- Python `max` over a nonempty list. -/
def maxOf (gs : List ℚ) : ℚ := gs.foldl max (gs.headD 0)

/-- Python `min` over a nonempty list. -/
def minOf (gs : List ℚ) : ℚ := gs.foldl min (gs.headD 0)

/-- The statistics block of `summary_report`: mean, median, max and min of
the collected grades, or `none` when no record has a composite. -/
def summaryStats (rows : List Row) : Option (ℚ × ℚ × ℚ × ℚ) :=
  let gs := collectGrades rows
  if gs = [] then none
  else some (meanOf gs, medianOf gs, maxOf gs, minOf gs)

/-! ## array_operations.py -/

/-- Outcome of the numeric-field validation loop body in `add_data`. -/
inductive ValidationResult where
  | missing
  | accepted (q : ℚ)
  | rejected
deriving DecidableEq, Repr

/-- Validation of one candidate value for a numeric field
(quiz1..quiz5, midterm, final, attendance_percent) in `add_data`, on the
already-stripped input: blank or case-insensitive "none" becomes missing;
otherwise the value must parse as a float and satisfy `0 <= v <= 100`
(false for NaN and the infinities), else the value is rejected and the
user is re-prompted. -/
def validateNumeric (val : String) : ValidationResult :=
  if val = "" ∨ lowerStr val = "none" then ValidationResult.missing
  else
    match pyFloat? val with
    | none => ValidationResult.rejected
    | some (PyFloat.finite q) =>
      if 0 ≤ q ∧ q ≤ 100 then ValidationResult.accepted q
      else ValidationResult.rejected
    | some _ => ValidationResult.rejected

/-- A stored record as `clean_ingest` returns it: 12 positional cells;
numeric cells hold their value or are missing, text cells hold a string.
Only the shape the sorting and deletion code touches is modelled. -/
inductive Cell where
  | text (s : String)
  | num (q : ℚ)
  | missing
deriving DecidableEq, Repr

/-- A valid stored row: positional list of cells. -/
abbrev SRow := List Cell

/-- `row[0]` of a valid row (valid rows always have 12 cells). -/
def rowId (row : SRow) : Option Cell := row.head?

/-- The filtering step of `delete_data`:
`[row for row in valid_rows if row[0] != student_id]`. -/
def deleteFilter (validRows : List SRow) (target : String) : List SRow :=
  validRows.filter fun row => rowId row ≠ some (Cell.text target)

/-- `delete_data` outcome: `none` means "No student found with that ID"
(lengths equal, nothing is saved); `some rows` means `save_cleaned_csv`
rewrites the file with exactly these rows. -/
def deleteData (validRows : List SRow) (target : String) : Option (List SRow) :=
  let updated := deleteFilter validRows target
  if updated.length = validRows.length then none else some updated

/-- File-state transition of `delete_data` followed by its conditional
`save_cleaned_csv`: on not-found the stored rows are untouched, otherwise
they are replaced by the filtered set. -/
def runDelete (validRows : List SRow) (target : String) (storedRows : List SRow) :
    List SRow :=
  match deleteData validRows target with
  | none => storedRows
  | some updated => updated

/-- Extended sort key domain of `sort_data`: `float('-inf')`, a finite
value, or `float('inf')`. -/
inductive ExtQ where
  | ninf
  | fin (q : ℚ)
  | pinf
deriving DecidableEq, Repr

/-- Order on sort keys. -/
def ExtQ.le : ExtQ → ExtQ → Bool
  | ExtQ.ninf, _ => true
  | _, ExtQ.pinf => true
  | ExtQ.fin a, ExtQ.fin b => decide (a ≤ b)
  | _, _ => false

/-- Numeric cell content at the sort column (columns 4..11 are numeric). -/
def numCellAt (row : SRow) (colIndex : ℕ) : Option ℚ :=
  match row.getD colIndex Cell.missing with
  | Cell.num q => some q
  | _ => none

/-- `sort_key` of `sort_data` for a numeric column: a missing value maps
to `-inf` for an ascending sort and to `+inf` for a descending one. -/
def sortKey (reverse : Bool) (colIndex : ℕ) (row : SRow) : ExtQ :=
  match numCellAt row colIndex with
  | none => if reverse then ExtQ.pinf else ExtQ.ninf
  | some q => ExtQ.fin q

/-- Row comparison used by the sort: ascending compares keys directly;
`reverse=True` flips the comparison (not the order of ties). -/
def sortLE (reverse : Bool) (colIndex : ℕ) (a b : SRow) : Bool :=
  if reverse then ExtQ.le (sortKey reverse colIndex b) (sortKey reverse colIndex a)
  else ExtQ.le (sortKey reverse colIndex a) (sortKey reverse colIndex b)

/-- `sorted(valid_rows, key=sort_key, reverse=reverse)` on a numeric
column: Python's sort is stable; `reverse=True` flips the comparison, not
the order of ties, which is exactly a stable merge sort under the
reversed key comparison. -/
def sortData (reverse : Bool) (colIndex : ℕ) (rows : List SRow) : List SRow :=
  rows.mergeSort (sortLE reverse colIndex)

/-! ## Concrete rows used by the spec's worked examples -/

/-- The spec's worked grade example: quizzes [80,90,70,60,100],
midterm 85, final 75, attendance 90. -/
def exampleRow : Row :=
  { quiz1 := some "80", quiz2 := some "90", quiz3 := some "70",
    quiz4 := some "60", quiz5 := some "100", midterm := some "85",
    final := some "75", attendance_percent := some "90" }

/-- A record with no numeric data at all. -/
def allMissingRow : Row := {}

/-- A record with every numeric field explicitly 0. -/
def allZeroRow : Row :=
  { quiz1 := some "0", quiz2 := some "0", quiz3 := some "0",
    quiz4 := some "0", quiz5 := some "0", midterm := some "0",
    final := some "0", attendance_percent := some "0" }

/-- One explicit zero quiz score, everything else missing. -/
def zeroQuizRow : Row := { quiz1 := some "0" }

/-- The spec's at-risk example: quizzes all 50, midterm 60, final 60,
attendance 70 (composite 58.00). -/
def atRiskExampleRow : Row :=
  { quiz1 := some "50", quiz2 := some "50", quiz3 := some "50",
    quiz4 := some "50", quiz5 := some "50", midterm := some "60",
    final := some "60", attendance_percent := some "70" }

/-- Out-of-range values that ingestion would reject but reporting accepts. -/
def overRangeRow : Row :=
  { midterm := some "200", final := some "200",
    attendance_percent := some "200" }

/-- A negative midterm, everything else missing. -/
def negativeRow : Row := { midterm := some "-5" }

/-- Two stored rows sharing the quiz1 value 50 (sort-tie example). -/
def tieRowA : SRow :=
  [Cell.text "s1", Cell.text "Lo", Cell.text "A", Cell.text "A", Cell.num 50]

/-- Second row of the sort-tie example. -/
def tieRowB : SRow :=
  [Cell.text "s2", Cell.text "Hi", Cell.text "B", Cell.text "A", Cell.num 50]

/-- A one-student valid row set for the deletion example. -/
def deleteDemoRows : List SRow :=
  [[Cell.text "s1", Cell.text "Lo", Cell.text "A", Cell.text "A", Cell.num 50]]

/-! ## Helper lemmas -/

/-- Branch lemma for `_compute_final_from_row_map`: whenever the
all-missing guard fails, the composite is the rounded weighted sum. -/
lemma computeFinal_of_not_all_missing (row : Row)
    (h : ¬(quizAvgOf row = 0 ∧ toFloatSafe row.midterm = none ∧
      toFloatSafe row.final = none ∧ toFloatSafe row.attendance_percent = none)) :
    computeFinal row = some (round2 (quizAvgOf row * wQuiz
      + (toFloatSafe row.midterm).getD 0 * wMidterm
      + (toFloatSafe row.final).getD 0 * wFinal
      + (toFloatSafe row.attendance_percent).getD 0 * wAttendance)) := by
  simp only [computeFinal]
  rw [if_neg h]

/-- Branch lemma: when the all-missing guard holds, the composite is absent. -/
lemma computeFinal_of_all_missing (row : Row)
    (hq : quizAvgOf row = 0) (hm : toFloatSafe row.midterm = none)
    (hf : toFloatSafe row.final = none)
    (ha : toFloatSafe row.attendance_percent = none) :
    computeFinal row = none := by
  simp only [computeFinal]
  rw [if_pos ⟨hq, hm, hf, ha⟩]

/-- The grade-collection fold appends exactly the present composites. -/
lemma collectGrades_foldl (rows : List Row) (acc : List ℚ) :
    rows.foldl (fun acc r =>
      match computeFinal r with
      | some f => acc ++ [f]
      | none => acc) acc
    = acc ++ rows.filterMap computeFinal := by
  induction rows generalizing acc with
  | nil => simp
  | cons r t ih =>
    cases hcf : computeFinal r with
    | none => simp [hcf, ih]
    | some f => simp [hcf, ih]

/-- Counting a `filterMap` equals counting the inputs it keeps. -/
lemma length_filterMap_eq {α β : Type} (f : α → Option β) (l : List α) :
    (l.filterMap f).length = (l.filter fun a => (f a).isSome).length := by
  induction l with
  | nil => rfl
  | cons a t ih => cases h : f a <;> simp [h, ih]

/-- `delete_data` reports not-found exactly when no valid row carries the
target identifier. -/
lemma deleteData_eq_none_iff (validRows : List SRow) (target : String) :
    deleteData validRows target = none ↔
      ∀ row ∈ validRows, rowId row ≠ some (Cell.text target) := by
  simp only [deleteData]
  by_cases hc : (deleteFilter validRows target).length = validRows.length
  · rw [if_pos hc]
    refine iff_of_true rfl ?_
    intro row hrow
    have := (List.filter_length_eq_length.mp hc) row hrow
    simpa using this
  · rw [if_neg hc]
    refine iff_of_false (by simp) ?_
    intro hall
    exact hc (List.filter_length_eq_length.mpr fun a ha => by simpa using hall a ha)

/-- `delete_data` either reports not-found or produces the filtered rows. -/
lemma deleteData_cases (validRows : List SRow) (target : String) :
    deleteData validRows target = none
    ∨ deleteData validRows target = some (deleteFilter validRows target) := by
  simp only [deleteData]
  split
  · exact Or.inl rfl
  · exact Or.inr rfl

/-- The sort-key order is reflexive. -/
lemma ExtQ.le_rfl (a : ExtQ) : ExtQ.le a a = true := by
  cases a <;> simp [ExtQ.le]

/-- The sort-key order is transitive. -/
lemma ExtQ.le_transitive (a b c : ExtQ) (hab : ExtQ.le a b = true)
    (hbc : ExtQ.le b c = true) : ExtQ.le a c = true := by
  cases a <;> cases b <;> cases c <;> simp_all [ExtQ.le]
  exact le_trans hab hbc

/-- The sort-key order is total. -/
lemma ExtQ.le_totality (a b : ExtQ) : (ExtQ.le a b || ExtQ.le b a) = true := by
  cases a <;> cases b <;> simp [ExtQ.le]
  exact le_total _ _

/-- The row comparison is transitive, in either direction. -/
lemma sortLE_trans (reverse : Bool) (colIndex : ℕ) (a b c : SRow)
    (hab : sortLE reverse colIndex a b) (hbc : sortLE reverse colIndex b c) :
    sortLE reverse colIndex a c := by
  cases reverse <;> simp only [sortLE, if_true, if_false, Bool.false_eq_true] at *
  · exact ExtQ.le_transitive _ _ _ hab hbc
  · exact ExtQ.le_transitive _ _ _ hbc hab

/-- The row comparison is total, in either direction. -/
lemma sortLE_total (reverse : Bool) (colIndex : ℕ) (a b : SRow) :
    (sortLE reverse colIndex a b || sortLE reverse colIndex b a) = true := by
  cases reverse <;> simp only [sortLE, if_true, if_false] <;>
    rw [Bool.or_comm] <;> exact ExtQ.le_totality _ _

/-- Inserting into the group list grows the total record count by one. -/
lemma groupSizeSum_addToGroups (gs : List (String × List Row)) (k : String)
    (r : Row) : groupSizeSum (addToGroups gs k r) = groupSizeSum gs + 1 := by
  induction gs with
  | nil => simp [addToGroups, groupSizeSum]
  | cons g t ih =>
    obtain ⟨k₀, rs⟩ := g
    by_cases h : k₀ = k
    · simp [addToGroups, h, groupSizeSum]
      omega
    · simp [addToGroups, h, groupSizeSum] at ih ⊢
      omega

/-- Inserting into the group list keeps the key list, or appends the new
key when it is not yet present. -/
lemma keys_addToGroups (gs : List (String × List Row)) (k : String) (r : Row) :
    (addToGroups gs k r).map Prod.fst
    = if k ∈ gs.map Prod.fst then gs.map Prod.fst
      else gs.map Prod.fst ++ [k] := by
  induction gs with
  | nil => simp [addToGroups]
  | cons g t ih =>
    obtain ⟨k₀, rs⟩ := g
    by_cases h : k₀ = k
    · simp [addToGroups, h]
    · have hne : ¬k = k₀ := fun hk => h hk.symm
      simp only [addToGroups, if_neg h, List.map_cons, List.mem_cons, ih]
      by_cases hm : k ∈ t.map Prod.fst
      · rw [if_pos hm, if_pos (Or.inr hm)]
      · rw [if_neg hm, if_neg (by tauto), List.cons_append]

/-- Distinct group keys are preserved by insertion. -/
lemma nodup_keys_addToGroups (gs : List (String × List Row)) (k : String)
    (r : Row) (h : (gs.map Prod.fst).Nodup) :
    ((addToGroups gs k r).map Prod.fst).Nodup := by
  rw [keys_addToGroups]
  by_cases hm : k ∈ gs.map Prod.fst
  · rwa [if_pos hm]
  · rw [if_neg hm]
    simp [List.nodup_append, h, hm]

/-- Every member of a group after insertion was already in a group with
the same key, or is the inserted row in the group keyed by `k`. -/
lemma mem_addToGroups (gs : List (String × List Row)) (k : String) (r : Row) :
    ∀ g ∈ addToGroups gs k r, ∀ x ∈ g.2,
      (∃ g₀ ∈ gs, g₀.1 = g.1 ∧ x ∈ g₀.2) ∨ (x = r ∧ g.1 = k) := by
  induction gs with
  | nil =>
    intro g hg x hx
    simp [addToGroups] at hg
    subst hg
    simp at hx
    exact Or.inr ⟨hx, rfl⟩
  | cons g₁ t ih =>
    obtain ⟨k₀, rs⟩ := g₁
    intro g hg x hx
    by_cases h : k₀ = k
    · simp only [addToGroups, if_pos h, List.mem_cons] at hg
      rcases hg with hg | hg
      · subst hg
        simp only [List.mem_append, List.mem_singleton] at hx
        rcases hx with hx | hx
        · exact Or.inl ⟨(k₀, rs), List.mem_cons_self _ _, rfl, hx⟩
        · exact Or.inr ⟨hx, h⟩
      · exact Or.inl ⟨g, List.mem_cons_of_mem _ hg, rfl, hx⟩
    · simp only [addToGroups, if_neg h, List.mem_cons] at hg
      rcases hg with hg | hg
      · subst hg
        exact Or.inl ⟨(k₀, rs), List.mem_cons_self _ _, rfl, hx⟩
      · rcases ih g hg x hx with ⟨g₀, hg₀, hk₀, hx₀⟩ | hr
        · exact Or.inl ⟨g₀, List.mem_cons_of_mem _ hg₀, hk₀, hx₀⟩
        · exact Or.inr hr

/-- The inserted row lands in a group carrying its key. -/
lemma addToGroups_self (gs : List (String × List Row)) (k : String) (r : Row) :
    ∃ g ∈ addToGroups gs k r, g.1 = k ∧ r ∈ g.2 := by
  induction gs with
  | nil => exact ⟨(k, [r]), by simp [addToGroups]⟩
  | cons g₁ t ih =>
    obtain ⟨k₀, rs⟩ := g₁
    by_cases h : k₀ = k
    · exact ⟨(k₀, rs ++ [r]), by simp [addToGroups, h]⟩
    · obtain ⟨g, hgmem, hk, hr⟩ := ih
      exact ⟨g, by simp [addToGroups, h, hgmem], hk, hr⟩

/-- Rows already placed in a group stay in some group after an insertion. -/
lemma addToGroups_preserves (gs : List (String × List Row)) (k : String)
    (r x : Row) (hx : ∃ g ∈ gs, x ∈ g.2) :
    ∃ g ∈ addToGroups gs k r, x ∈ g.2 := by
  induction gs with
  | nil => simp at hx
  | cons g₁ t ih =>
    obtain ⟨k₀, rs⟩ := g₁
    obtain ⟨g, hgmem, hxg⟩ := hx
    by_cases h : k₀ = k
    · simp only [List.mem_cons] at hgmem
      rcases hgmem with hgmem | hgmem
      · subst hgmem
        exact ⟨(k₀, rs ++ [r]), by simp [addToGroups, h], by simp [hxg]⟩
      · exact ⟨g, by simp [addToGroups, h, hgmem], hxg⟩
    · simp only [List.mem_cons] at hgmem
      rcases hgmem with hgmem | hgmem
      · subst hgmem
        exact ⟨(k₀, rs), by simp [addToGroups, h], hxg⟩
      · obtain ⟨g₂, hg₂, hxg₂⟩ := ih ⟨g, hgmem, hxg⟩
        exact ⟨g₂, by simp [addToGroups, h, hg₂], hxg₂⟩

/-- Fold invariant: the grouping fold adds one record per input row. -/
lemma groupFold_size (rows : List Row) (acc : List (String × List Row)) :
    groupSizeSum (rows.foldl (fun gs r => addToGroups gs (sectionKey r) r) acc)
    = groupSizeSum acc + rows.length := by
  induction rows generalizing acc with
  | nil => simp
  | cons r t ih =>
    simp only [List.foldl_cons, ih, groupSizeSum_addToGroups, List.length_cons]
    omega

/-- Fold invariant: group keys stay distinct. -/
lemma groupFold_nodup (rows : List Row) (acc : List (String × List Row))
    (h : (acc.map Prod.fst).Nodup) :
    ((rows.foldl (fun gs r => addToGroups gs (sectionKey r) r) acc).map
      Prod.fst).Nodup := by
  induction rows generalizing acc with
  | nil => exact h
  | cons r t ih => exact ih _ (nodup_keys_addToGroups _ _ _ h)

/-- Fold invariant: members of each group carry the group's key. -/
lemma groupFold_keyed (rows : List Row) (acc : List (String × List Row))
    (h : ∀ g ∈ acc, ∀ x ∈ g.2, sectionKey x = g.1) :
    ∀ g ∈ rows.foldl (fun gs r => addToGroups gs (sectionKey r) r) acc,
      ∀ x ∈ g.2, sectionKey x = g.1 := by
  induction rows generalizing acc with
  | nil => exact h
  | cons r t ih =>
    refine ih _ ?_
    intro g hg x hx
    rcases mem_addToGroups acc (sectionKey r) r g hg x hx with
      ⟨g₀, hg₀, hk₀, hx₀⟩ | ⟨hxr, hgk⟩
    · rw [← hk₀]
      exact h g₀ hg₀ x hx₀
    · rw [hxr, hgk]

/-- Fold invariant: every row of the input ends up in some group. -/
lemma groupFold_complete (rows : List Row) (acc : List (String × List Row)) :
    (∀ x, (∃ g ∈ acc, x ∈ g.2) →
      ∃ g ∈ rows.foldl (fun gs r => addToGroups gs (sectionKey r) r) acc,
        x ∈ g.2)
    ∧ (∀ x ∈ rows,
      ∃ g ∈ rows.foldl (fun gs r => addToGroups gs (sectionKey r) r) acc,
        x ∈ g.2) := by
  induction rows generalizing acc with
  | nil => exact ⟨fun x hx => hx, by simp⟩
  | cons r t ih =>
    constructor
    · intro x hx
      exact (ih _).1 x (addToGroups_preserves acc (sectionKey r) r x hx)
    · intro x hx
      simp only [List.mem_cons] at hx
      rcases hx with hx | hx
      · subst hx
        obtain ⟨g, hg, _, hxg⟩ := addToGroups_self acc (sectionKey x) x
        exact (ih _).1 x ⟨g, hg, hxg⟩
      · exact (ih _).2 x hx

end StudentRecords

/-! ## Claim theorems -/

namespace StudentRecords

/-- C1: whenever at least one of midterm, final or attendance is present
or the quiz average is non-zero, the composite equals
quizAvg·0.3 + midterm·0.3 + final·0.3 + attendance·0.1 (missing
midterm/final/attendance replaced by 0) rounded half-to-even at two
decimals. -/
theorem claim_C1 (row : Row)
    (h : quizAvgOf row ≠ 0 ∨ toFloatSafe row.midterm ≠ none ∨
      toFloatSafe row.final ≠ none ∨ toFloatSafe row.attendance_percent ≠ none) :
    computeFinal row = some (round2 (quizAvgOf row * wQuiz
      + (toFloatSafe row.midterm).getD 0 * wMidterm
      + (toFloatSafe row.final).getD 0 * wFinal
      + (toFloatSafe row.attendance_percent).getD 0 * wAttendance)) := by
  apply computeFinal_of_not_all_missing
  rintro ⟨h1, h2, h3, h4⟩
  rcases h with h | h | h | h <;> exact h (by assumption)

/-- C1 witness: the spec's worked example (quizzes [80,90,70,60,100],
midterm 85, final 75, attendance 90) has composite 81.00. -/
theorem claim_C1_witness : computeFinal exampleRow = some 81 := by
  have h := claim_C1 exampleRow (Or.inl (by with_unfolding_all decide))
  rw [h]
  with_unfolding_all decide

/-- C2: a record whose numeric fields are all absent gets composite
`none` and letter "N/A", while a record whose numeric fields are all
explicitly 0 gets composite 0.00 and letter "F" — the short-circuit tests
raw missing-ness, not the zero-substituted values. -/
theorem claim_C2 :
    (∀ row : Row, quizzesOf row = [] →
      toFloatSafe row.midterm = none → toFloatSafe row.final = none →
      toFloatSafe row.attendance_percent = none →
      computeFinal row = none ∧ letterGrade (computeFinal row) = "N/A")
    ∧ (∀ row : Row,
      toFloatSafe row.quiz1 = some 0 → toFloatSafe row.quiz2 = some 0 →
      toFloatSafe row.quiz3 = some 0 → toFloatSafe row.quiz4 = some 0 →
      toFloatSafe row.quiz5 = some 0 →
      toFloatSafe row.midterm = some 0 → toFloatSafe row.final = some 0 →
      toFloatSafe row.attendance_percent = some 0 →
      computeFinal row = some 0 ∧ letterGrade (computeFinal row) = "F") := by
  constructor
  · intro row hq hm hf ha
    have hqa : quizAvgOf row = 0 := by simp [quizAvgOf, hq]
    have hcf := computeFinal_of_all_missing row hqa hm hf ha
    exact ⟨hcf, by rw [hcf]; rfl⟩
  · intro row h1 h2 h3 h4 h5 hm hf ha
    have hq : quizzesOf row = [0, 0, 0, 0, 0] := by
      simp [quizzesOf, h1, h2, h3, h4, h5]
    have hqa : quizAvgOf row = 0 := by
      simp [quizAvgOf, hq]
    have hcf := computeFinal_of_not_all_missing row (by simp [hm])
    rw [hqa, hm, hf, ha] at hcf
    norm_num [wQuiz, wMidterm, wFinal, wAttendance] at hcf
    have h0 : round2 0 = 0 := by with_unfolding_all decide
    rw [h0] at hcf
    exact ⟨hcf, by rw [hcf]; with_unfolding_all decide⟩

/-- C2 witness: the two edge rows evaluated concretely. -/
theorem claim_C2_witness :
    computeFinal allMissingRow = none
    ∧ letterGrade (computeFinal allMissingRow) = "N/A"
    ∧ computeFinal allZeroRow = some 0
    ∧ letterGrade (computeFinal allZeroRow) = "F" := by
  have h1 := claim_C2.1 allMissingRow (by with_unfolding_all decide) (by with_unfolding_all decide) (by with_unfolding_all decide) (by with_unfolding_all decide)
  have h2 := claim_C2.2 allZeroRow (by with_unfolding_all decide) (by with_unfolding_all decide) (by with_unfolding_all decide) (by with_unfolding_all decide)
    (by with_unfolding_all decide) (by with_unfolding_all decide) (by with_unfolding_all decide) (by with_unfolding_all decide)
  exact ⟨h1.1, h1.2, h2.1, h2.2⟩

/-- C3: when midterm, final and attendance are all missing and the quiz
average is 0 — also when present quiz scores are explicitly 0 — the
composite is absent and the letter grade is "N/A". -/
theorem claim_C3 (row : Row)
    (hm : toFloatSafe row.midterm = none) (hf : toFloatSafe row.final = none)
    (ha : toFloatSafe row.attendance_percent = none)
    (hq : quizAvgOf row = 0) :
    computeFinal row = none ∧ letterGrade (computeFinal row) = "N/A" := by
  have hcf := computeFinal_of_all_missing row hq hm hf ha
  exact ⟨hcf, by rw [hcf]; rfl⟩

/-- C3 witness: a row whose only datum is an explicit quiz score of 0. -/
theorem claim_C3_witness :
    computeFinal zeroQuizRow = none
    ∧ letterGrade (computeFinal zeroQuizRow) = "N/A" :=
  claim_C3 zeroQuizRow (by with_unfolding_all decide) (by with_unfolding_all decide) (by with_unfolding_all decide) (by with_unfolding_all decide)

/-- C5: the numeric-field validator accepts a candidate value iff it is
blank, the case-insensitive sentinel "none" (both become missing), or it
parses as a finite number in [0,100]; unparseable text, non-finite
parses and out-of-range numbers are rejected. -/
theorem claim_C5 (val : String) :
    (validateNumeric val = ValidationResult.missing ↔
      (val = "" ∨ lowerStr val = "none"))
    ∧ (¬validateNumeric val = ValidationResult.rejected ↔
      (val = "" ∨ lowerStr val = "none" ∨
        ∃ q : ℚ, pyFloat? val = some (PyFloat.finite q) ∧ 0 ≤ q ∧ q ≤ 100)) := by
  by_cases hb : val = "" ∨ lowerStr val = "none"
  · have hv : validateNumeric val = ValidationResult.missing := by
      simp only [validateNumeric]
      rw [if_pos hb]
    rw [hv]
    exact ⟨iff_of_true rfl hb, iff_of_true (by simp) (by tauto)⟩
  · push_neg at hb
    obtain ⟨hb1, hb2⟩ := hb
    cases hp : pyFloat? val with
    | none =>
      have hv : validateNumeric val = ValidationResult.rejected := by
        simp [validateNumeric, hp, hb1, hb2]
      rw [hv]
      constructor
      · simp [hb1, hb2]
      · simp [hb1, hb2, hp]
    | some pf =>
      cases pf with
      | finite q =>
        by_cases hr : 0 ≤ q ∧ q ≤ 100
        · have hv : validateNumeric val = ValidationResult.accepted q := by
            simp [validateNumeric, hp, hb1, hb2, hr.1, hr.2]
          rw [hv]
          constructor
          · simp [hb1, hb2]
          · exact iff_of_true (by simp) (Or.inr (Or.inr ⟨q, rfl, hr.1, hr.2⟩))
        · have hv : validateNumeric val = ValidationResult.rejected := by
            simp [validateNumeric, hp, hb1, hb2, hr]
          rw [hv]
          constructor
          · simp [hb1, hb2]
          · refine iff_of_false (by simp) ?_
            rintro (h | h | ⟨q₀, hq₀, h1, h2⟩)
            · exact hb1 h
            · exact hb2 h
            · have he := PyFloat.finite.inj (Option.some.inj hq₀)
              subst he
              exact hr ⟨h1, h2⟩
      | pinf =>
        have hv : validateNumeric val = ValidationResult.rejected := by
          simp [validateNumeric, hp, hb1, hb2]
        rw [hv]
        constructor <;> simp [hb1, hb2, hp]
      | ninf =>
        have hv : validateNumeric val = ValidationResult.rejected := by
          simp [validateNumeric, hp, hb1, hb2]
        rw [hv]
        constructor <;> simp [hb1, hb2, hp]
      | nan =>
        have hv : validateNumeric val = ValidationResult.rejected := by
          simp [validateNumeric, hp, hb1, hb2]
        rw [hv]
        constructor <;> simp [hb1, hb2, hp]

/-- C5 witness: concrete classifications of the validator. -/
theorem claim_C5_witness :
    validateNumeric "" = ValidationResult.missing
    ∧ ¬validateNumeric "50" = ValidationResult.rejected := by
  constructor
  · exact (claim_C5 "").1.mpr (Or.inl rfl)
  · exact (claim_C5 "50").2.mpr (Or.inr (Or.inr ⟨50, by with_unfolding_all decide, by with_unfolding_all decide, by with_unfolding_all decide⟩))

/-- C10: the reporting conversion path is total — missing input, blank,
case-insensitive "none" and unparseable text all become missing without
error — and it performs no range check, so out-of-range values flow into
the weighted sum and the composite can leave [0,100], even though the
ingestion validator rejects the same values. -/
theorem claim_C10 :
    (∀ s : String, pyFloat? (pyStrip s) = none → toFloatSafe (some s) = none)
    ∧ toFloatSafe none = none
    ∧ toFloatSafe (some "") = none
    ∧ toFloatSafe (some "NoNe") = none
    ∧ computeFinal overRangeRow = some 140 ∧ ¬(140 : ℚ) ≤ 100
    ∧ computeFinal negativeRow = some (-(3/2)) ∧ (-(3/2) : ℚ) < 0
    ∧ validateNumeric "200" = ValidationResult.rejected
    ∧ validateNumeric "-5" = ValidationResult.rejected := by
  refine ⟨?_, by with_unfolding_all decide, by with_unfolding_all decide, by with_unfolding_all decide, by with_unfolding_all decide, by with_unfolding_all decide,
    by with_unfolding_all decide, by with_unfolding_all decide, by with_unfolding_all decide, by with_unfolding_all decide⟩
  intro s h
  by_cases hb : pyStrip s = "" ∨ lowerStr (pyStrip s) = "none"
  · simp [toFloatSafe, hb]
  · simp [toFloatSafe, hb, h]

/-- C10 witness: an unparseable string is treated as missing. -/
theorem claim_C10_witness : toFloatSafe (some "abc") = none :=
  claim_C10.1 "abc" (by with_unfolding_all decide)

/-- C4: the at-risk export lists exactly the input records whose composite
is present and strictly below the threshold (default 75); the spec's
example record (quizzes all 50, midterm 60, final 60, attendance 70) has
composite 58.00 and is therefore below the default threshold. -/
theorem claim_C4 :
    (∀ (rows : List Row) (threshold : ℚ) (r : Row) (f : ℚ),
      (r, f) ∈ exportAtRisk rows threshold ↔
        (r ∈ rows ∧ computeFinal r = some f ∧ f < threshold))
    ∧ computeFinal atRiskExampleRow = some 58
    ∧ PASSING_GRADE = 75
    ∧ (58 : ℚ) < PASSING_GRADE := by
  refine ⟨?_, by with_unfolding_all decide, by with_unfolding_all decide,
    by with_unfolding_all decide⟩
  intro rows threshold r f
  simp only [exportAtRisk, List.mem_filterMap]
  constructor
  · rintro ⟨a, ha, hg⟩
    cases hcf : computeFinal a with
    | none => simp [hcf] at hg
    | some g =>
      simp only [hcf] at hg
      by_cases hlt : g < threshold
      · rw [if_pos hlt] at hg
        obtain ⟨rfl, rfl⟩ := Prod.mk.inj (Option.some.inj hg)
        exact ⟨ha, hcf, hlt⟩
      · rw [if_neg hlt] at hg
        exact absurd hg (by simp)
  · rintro ⟨hr, hcf, hlt⟩
    refine ⟨r, hr, ?_⟩
    rw [hcf]
    exact if_pos hlt

/-- C4 witness: the spec's at-risk example is listed at threshold 75. -/
theorem claim_C4_witness :
    (atRiskExampleRow, (58 : ℚ)) ∈ exportAtRisk [atRiskExampleRow] PASSING_GRADE :=
  (claim_C4.1 [atRiskExampleRow] PASSING_GRADE atRiskExampleRow 58).mpr
    ⟨List.mem_singleton.mpr rfl, claim_C4.2.1, claim_C4.2.2.2⟩

/-- C7: the summary statistics are computed over exactly the records
whose composite is present — the collected grade list is precisely the
`filterMap` of the composite over the input, its length counts the
records with a present composite, and the mean/median/max/min block is a
function of that list alone (with no statistics when it is empty). -/
theorem claim_C7 (rows : List Row) :
    collectGrades rows = rows.filterMap computeFinal
    ∧ (collectGrades rows).length
      = (rows.filter fun r => (computeFinal r).isSome).length
    ∧ summaryStats rows
      = (if rows.filterMap computeFinal = [] then none
        else some (meanOf (rows.filterMap computeFinal),
          medianOf (rows.filterMap computeFinal),
          maxOf (rows.filterMap computeFinal),
          minOf (rows.filterMap computeFinal))) := by
  have h1 : collectGrades rows = rows.filterMap computeFinal := by
    simpa [collectGrades] using collectGrades_foldl rows []
  refine ⟨h1, ?_, ?_⟩
  · rw [h1]
    exact length_filterMap_eq _ _
  · simp only [summaryStats, h1]

/-- C7 witness: with one graded record and one record with no numeric
data, the statistics see exactly the single composite 81.00. -/
theorem claim_C7_witness :
    collectGrades [exampleRow, allMissingRow] = [81] := by
  rw [(claim_C7 [exampleRow, allMissingRow]).1]
  with_unfolding_all decide

/-- C9: deletion by identifier is atomic on failure — not-found is
reported exactly when no valid row carries the target identifier and the
stored rows are then left untouched; otherwise the store is rewritten
with exactly the valid rows whose identifier differs, in their original
order (the filtered list is a sublist of the input). -/
theorem claim_C9 (validRows : List SRow) (target : String)
    (storedRows : List SRow) :
    (deleteData validRows target = none ↔
      ∀ row ∈ validRows, rowId row ≠ some (Cell.text target))
    ∧ (deleteData validRows target = none →
      runDelete validRows target storedRows = storedRows)
    ∧ ((∃ row ∈ validRows, rowId row = some (Cell.text target)) →
      runDelete validRows target storedRows = deleteFilter validRows target)
    ∧ List.Sublist (deleteFilter validRows target) validRows
    ∧ (∀ row, row ∈ deleteFilter validRows target ↔
      (row ∈ validRows ∧ rowId row ≠ some (Cell.text target))) := by
  refine ⟨deleteData_eq_none_iff validRows target, ?_, ?_, ?_, ?_⟩
  · intro h
    simp only [runDelete, h]
  · rintro ⟨row, hrow, hid⟩
    rcases deleteData_cases validRows target with h | h
    · exact absurd hid (((deleteData_eq_none_iff validRows target).mp h) row hrow)
    · simp only [runDelete, h]
  · exact List.filter_sublist _
  · intro row
    simp [deleteFilter, List.mem_filter]

/-- C9 witness: a miss leaves the one-row store untouched; a hit rewrites
it to the empty row set. -/
theorem claim_C9_witness :
    deleteData deleteDemoRows "zzz" = none
    ∧ runDelete deleteDemoRows "zzz" deleteDemoRows = deleteDemoRows
    ∧ runDelete deleteDemoRows "s1" deleteDemoRows = [] := by
  have hmiss := claim_C9 deleteDemoRows "zzz" deleteDemoRows
  have hhit := claim_C9 deleteDemoRows "s1" deleteDemoRows
  have hnone : deleteData deleteDemoRows "zzz" = none :=
    hmiss.1.mpr (by with_unfolding_all decide)
  refine ⟨hnone, hmiss.2.1 hnone, ?_⟩
  have h := hhit.2.2.1 ⟨deleteDemoRows.headD [], by simp [deleteDemoRows], rfl⟩
  rw [h]
  with_unfolding_all decide

/-- C6: per-section export partitions the input — each group's members
carry that group's key, group keys are distinct, every input record lands
in a group, and the group sizes sum to the input count; a `None` or empty
section maps to the group name "UNSPECIFIED", and the sanitized group
name (hence the file name `section_<name>.csv`) contains no spaces. -/
theorem claim_C6 (rows : List Row) :
    groupSizeSum (groupBySection rows) = rows.length
    ∧ ((groupBySection rows).map Prod.fst).Nodup
    ∧ (∀ g ∈ groupBySection rows, ∀ x ∈ g.2, sectionKey x = g.1)
    ∧ (∀ r ∈ rows, ∃ g ∈ groupBySection rows, r ∈ g.2)
    ∧ (∀ r : Row, (r.«section» = none ∨ r.«section» = some "") →
        sectionKey r = "UNSPECIFIED")
    ∧ (∀ r : Row, ' ' ∉ (sectionKey r).data)
    ∧ sectionKey { «section» := some "A B" } = "A_B"
    ∧ sectionFileName (sectionKey { «section» := some "A B" })
      = "section_A_B.csv" := by
  refine ⟨?_, ?_, ?_, ?_, ?_, ?_, by with_unfolding_all decide,
    by with_unfolding_all decide⟩
  · simpa [groupBySection, groupSizeSum] using groupFold_size rows []
  · simpa [groupBySection] using groupFold_nodup rows [] (by simp)
  · simpa [groupBySection] using groupFold_keyed rows [] (by simp)
  · simpa [groupBySection] using (groupFold_complete rows []).2
  · intro r h
    rcases h with h | h <;>
      · simp only [sectionKey, h]
        with_unfolding_all decide
  · intro r hmem
    simp only [sectionKey] at hmem
    obtain ⟨c, _, hce⟩ := List.mem_map.mp hmem
    by_cases h : c = ' ' <;> simp [h] at hce

/-- C6 witness: a two-section input splits into groups of the right
sizes, and a blank section row is grouped under "UNSPECIFIED". -/
theorem claim_C6_witness :
    groupSizeSum (groupBySection [exampleRow, allMissingRow, exampleRow]) = 3
    ∧ sectionKey allMissingRow = "UNSPECIFIED" := by
  have h := claim_C6 [exampleRow, allMissingRow, exampleRow]
  exact ⟨h.1, h.2.2.2.2.1 allMissingRow (Or.inl rfl)⟩

/-- C8: sorting by a numeric column permutes the rows, maps a missing
value to −∞ ascending and +∞ descending, never places a present-valued
row before a missing-valued one (missing rows sit at the front in both
directions), and preserves the original relative order of rows with equal
sort keys (stability). -/
theorem claim_C8 (reverse : Bool) (colIndex : ℕ) (rows : List SRow) :
    List.Perm (sortData reverse colIndex rows) rows
    ∧ (∀ row : SRow, numCellAt row colIndex = none →
        sortKey false colIndex row = ExtQ.ninf
        ∧ sortKey true colIndex row = ExtQ.pinf)
    ∧ List.Pairwise (fun a b => ¬(numCellAt a colIndex ≠ none
        ∧ numCellAt b colIndex = none)) (sortData reverse colIndex rows)
    ∧ (∀ a b : SRow, sortKey reverse colIndex a = sortKey reverse colIndex b →
        List.Sublist [a, b] rows →
        List.Sublist [a, b] (sortData reverse colIndex rows)) := by
  have htrans : ∀ a b c : SRow, sortLE reverse colIndex a b →
      sortLE reverse colIndex b c → sortLE reverse colIndex a c :=
    fun a b c => sortLE_trans reverse colIndex a b c
  have htotal : ∀ a b : SRow,
      (sortLE reverse colIndex a b || sortLE reverse colIndex b a) = true :=
    fun a b => sortLE_total reverse colIndex a b
  refine ⟨List.mergeSort_perm rows _, ?_, ?_, ?_⟩
  · intro row h
    constructor <;> simp [sortKey, h]
  · have hs := List.sorted_mergeSort htrans htotal rows
    refine hs.imp ?_
    intro a b hle ⟨hpa, hmb⟩
    obtain ⟨qa, hqa⟩ := Option.ne_none_iff_exists'.mp hpa
    cases reverse <;>
      simp [sortLE, sortKey, hqa, hmb, ExtQ.le] at hle
  · intro a b hk hsub
    apply List.sublist_mergeSort htrans htotal ?_ hsub
    refine List.pairwise_cons.mpr ⟨?_, by simp⟩
    intro b₀ hb₀
    rw [List.mem_singleton] at hb₀
    subst hb₀
    show sortLE reverse colIndex a b₀ = true
    cases reverse <;> simp [sortLE, hk, ExtQ.le_rfl]

/-- C8 witness: two rows tied on the sort column keep their original
order under a descending sort. -/
theorem claim_C8_witness :
    List.Sublist [tieRowA, tieRowB] (sortData true 4 [tieRowA, tieRowB]) :=
  (claim_C8 true 4 [tieRowA, tieRowB]).2.2.2 tieRowA tieRowB
    (by with_unfolding_all decide) (List.Sublist.refl _)

end StudentRecords
